import Mathlib

/-!
# Verification of the sprofile resource accounting core

Shallow embedding of `src/sprofile/sprofile.py`.  Machine integers are
modelled by `ℤ` (NVML timestamps, counters), Python float arithmetic on
the derived quantities by `ℚ`, and Python code that can raise by
`Option`/`Except`.
-/

namespace Sprofile

/-- One NVML per-process accounting record, as consumed by
`NVMLStats.usage_stats`: `startTime` (epoch microseconds), `time`
(duration), `gpuUtilization` (percent) and `maxMemoryUsage` (bytes). -/
structure AccountingStat where
  startTime : ℤ
  time : ℤ
  gpuUtilization : ℤ
  maxMemoryUsage : ℤ
deriving DecidableEq, Repr

/-- Line 121: `stats = [s for s in stats if s.startTime >= start_time]`. -/
def jobFilter (jobStart : ℤ) (stats : List AccountingStat) : List AccountingStat :=
  stats.filter fun s => jobStart ≤ s.startTime

/-- Lines 123–125: `timesplits = sorted([s.startTime for s in stats] +
[s.startTime + s.time for s in stats])` (duplicates are kept). -/
def timesplits (fs : List AccountingStat) : List ℤ :=
  List.insertionSort (· ≤ ·)
    ((fs.map fun s => s.startTime) ++ fs.map fun s => s.startTime + s.time)

/-- Lines 132–134: the inner loop summing `s.gpuUtilization` over the
records with `s.startTime <= start and s.startTime + s.time >= stop`. -/
def coverUtil (fs : List AccountingStat) (a b : ℤ) : ℤ :=
  (fs.map fun s =>
    if s.startTime ≤ a ∧ b ≤ s.startTime + s.time then s.gpuUtilization else 0).sum

/-- Lines 132–135: the inner loop summing `s.maxMemoryUsage` over the
records with `s.startTime <= start and s.startTime + s.time >= stop`. -/
def coverMem (fs : List AccountingStat) (a b : ℤ) : ℤ :=
  (fs.map fun s =>
    if s.startTime ≤ a ∧ b ≤ s.startTime + s.time then s.maxMemoryUsage else 0).sum

/-- Line 129: `zip(timesplits[0:-1], timesplits[1:])`. -/
def adjPairs (l : List ℤ) : List (ℤ × ℤ) := l.zip l.tail

/-- Line 143: the divisor `max(timesplits[-1] - timesplits[0], 1)`. -/
def denom (fs : List AccountingStat) : ℤ :=
  max ((timesplits fs).getLastD 0 - (timesplits fs).headD 0) 1

/-- Lines 123–145 of `NVMLStats.usage_stats`, after the job-start filter:
the accumulation loop over adjacent endpoint pairs followed by the final
normalisation, returning `(gpu_util, peak_mem)`. -/
def usage_core (fs : List AccountingStat) : ℚ × ℤ :=
  let ts := timesplits fs
  let acc := (adjPairs ts).foldl
    (fun up p => (up.1 + coverUtil fs p.1 p.2 * (p.2 - p.1), max up.2 (coverMem fs p.1 p.2)))
    ((0 : ℤ), (0 : ℤ))
  if ts.isEmpty then ((0 : ℚ), acc.2)
  else ((acc.1 : ℚ) / 100 / ((denom fs : ℤ) : ℚ), acc.2)

/-- `NVMLStats.usage_stats` (lines 106–145): filter the records to those
with `startTime >= jobStart`, then aggregate.  The device-total-memory
component is independent of the records and is omitted. -/
def usage_stats (jobStart : ℤ) (stats : List AccountingStat) : ℚ × ℤ :=
  usage_core (jobFilter jobStart stats)

/-- The spec's `min_start`: the minimum `startTime` over the records. -/
def minStart (fs : List AccountingStat) : ℤ :=
  match fs with
  | [] => 0
  | s :: t => t.foldl (fun m r => min m r.startTime) s.startTime

/-- The spec's `max_end`: the maximum `startTime + duration` over the records. -/
def maxEnd (fs : List AccountingStat) : ℤ :=
  match fs with
  | [] => 0
  | s :: t => t.foldl (fun m r => max m (r.startTime + r.time)) (s.startTime + s.time)

/-- The spec's reference load formula over a given endpoint sequence
`eps`: `Σ util(a,b)*(b-a) / 100 / max(lastEndpoint - firstEndpoint, 1)`. -/
def specLoad (fs : List AccountingStat) (eps : List ℤ) : ℚ :=
  ((((adjPairs eps).map fun p => coverUtil fs p.1 p.2 * (p.2 - p.1)).sum : ℤ) : ℚ) / 100
    / ((max (eps.getLastD 0 - eps.headD 0) 1 : ℤ) : ℚ)

/-- The spec's reference peak-memory formula over a given endpoint
sequence `eps`: the maximum of `mem(a,b)` over the sub-intervals. -/
def specPeak (fs : List AccountingStat) (eps : List ℤ) : ℤ :=
  ((adjPairs eps).map fun p => coverMem fs p.1 p.2).foldr max 0

/-- The spec's reference aggregator exactly as worded: partition the
timeline at the sorted **distinct** interval endpoints, then apply the
load and peak formulas; empty filtered set gives `(0, 0)`. -/
def specRefDistinct (jobStart : ℤ) (stats : List AccountingStat) : ℚ × ℤ :=
  let fs := jobFilter jobStart stats
  let eps := (timesplits fs).dedup
  if fs.isEmpty then ((0 : ℚ), (0 : ℤ))
  else (specLoad fs eps, specPeak fs eps)

/-- The spec's reference aggregator amended to keep the endpoint
sequence with multiplicity (no `dedup`), as the code does. -/
def specRefMulti (jobStart : ℤ) (stats : List AccountingStat) : ℚ × ℤ :=
  let fs := jobFilter jobStart stats
  let eps := timesplits fs
  if fs.isEmpty then ((0 : ℚ), (0 : ℤ))
  else (specLoad fs eps, specPeak fs eps)

/-- Failure modes of the stop phase that the embedding distinguishes. -/
inductive StopError where
  | missingBaseline
  | zeroDivision
  | emptySequence
deriving DecidableEq, Repr

/-- Python float division: `a / b` raises `ZeroDivisionError` when `b`
is zero, modelled by `none`. -/
def floatDiv (a b : ℚ) : Option ℚ := if b = 0 then none else some (a / b)

/-- Line 240: `cpu_load = [t / (run_time * 1e9) for t in cpu_times]`;
the comprehension evaluates its divisions in order and the first
`ZeroDivisionError` aborts it. -/
def cpuLoadList (times : List ℤ) (runTime : ℤ) : Option (List ℚ) :=
  match times with
  | [] => some []
  | t :: rest =>
    match floatDiv (t : ℚ) ((runTime : ℚ) * 1000000000), cpuLoadList rest runTime with
    | some q, some qs => some (q :: qs)
    | _, _ => none

/-- `CGroupStats.stop` (lines 203–247), with the already-parsed counter
file contents as inputs: look up the per-cpu baseline (a missing key is
the missing-baseline failure), take per-core deltas over the cpu-set,
divide by `run_time * 1e9`, and return
`(sum(cpu_load), len(cpu_load), memory_max/1024**3, memory_limit/1024**3)`. -/
def cgroup_stop (baseline : Option (List ℤ)) (usage_percpu : List ℤ) (cpuset : List ℕ)
    (runTime : ℤ) (memoryMax memoryLimit : ℤ) : Except StopError (ℚ × ℕ × ℚ × ℚ) :=
  match baseline with
  | none => .error .missingBaseline
  | some usage_percpu_old =>
    let cpu_times := cpuset.map fun i => usage_percpu.getD i 0 - usage_percpu_old.getD i 0
    match cpuLoadList cpu_times runTime with
    | none => .error .zeroDivision
    | some cpu_load =>
      .ok (cpu_load.sum, cpu_load.length, (memoryMax : ℚ) / 1024 ^ 3,
        (memoryLimit : ℚ) / 1024 ^ 3)

/-- The per-device data read inside the loop of `NVMLStats.stop`:
energy counter, accounting records, device total memory. -/
structure GpuDevice where
  energy : ℤ
  stats : List AccountingStat
  totalMemory : ℤ

/-- Lines 182–184: `sum((n - o) / 3.6e9 for n, o in zip(energy_usage,
energy_usage_old))` — `zip` truncates to the shorter list. -/
def energy_used (energy_new energy_old : List ℤ) : ℚ :=
  ((energy_new.zip energy_old).map fun p => ((p.1 - p.2 : ℤ) : ℚ) / 3600000000).sum

/-- Python `max(list)` (raises on an empty list). -/
def listMax : List ℤ → Option ℤ
  | [] => none
  | x :: xs => some (xs.foldl max x)

/-- Python `min(list)` (raises on an empty list). -/
def listMin : List ℤ → Option ℤ
  | [] => none
  | x :: xs => some (xs.foldl min x)

/-- `NVMLStats.stop` (lines 156–192): look up the energy baseline (a
missing key is the missing-baseline failure), gather per-device metrics,
and return `(sum(gpu_avg_load), len(gpu_avg_load), max(gpu_peak_mem)/1024**3,
min(gpu_total_mem)/1024**3, energy_used)`. -/
def nvml_stop (jobStart : ℤ) (baseline : Option (List ℤ)) (devices : List GpuDevice) :
    Except StopError (ℚ × ℕ × ℚ × ℚ × ℚ) :=
  match baseline with
  | none => .error .missingBaseline
  | some energy_usage_old =>
    let energy_usage := devices.map fun d => d.energy
    let gpu_avg_load := devices.map fun d => (usage_stats jobStart d.stats).1
    let gpu_peak_mem := devices.map fun d => (usage_stats jobStart d.stats).2
    let gpu_total_mem := devices.map fun d => d.totalMemory
    match listMax gpu_peak_mem, listMin gpu_total_mem with
    | some pk, some tm =>
      .ok (gpu_avg_load.sum, gpu_avg_load.length, (pk : ℚ) / 1024 ^ 3, (tm : ℚ) / 1024 ^ 3,
        energy_used energy_usage energy_usage_old)
    | _, _ => .error .emptySequence

/-- `num_gpus` (lines 24–31): `0` when `pynvml` is `None` (no vendor API),
otherwise the device count reported by the API. -/
def num_gpus (api : Option ℕ) : ℕ :=
  match api with
  | none => 0
  | some count => count

/-- The persisted shelve snapshot for one (job, host): each key may be
absent. -/
structure Snapshot where
  usage_percpu_old : Option (List ℤ)
  energy_usage_old : Option (List ℤ)
deriving DecidableEq

/-- The start action of `main` (lines 261–265): always store the per-cpu
baseline; store the per-device energy baseline only when `num_gpus() > 0`. -/
def main_start (api : Option ℕ) (usage_percpu : List ℤ) (energyOf : ℕ → ℤ) : Snapshot :=
  { usage_percpu_old := some usage_percpu
    energy_usage_old :=
      if 0 < num_gpus api then some ((List.range (num_gpus api)).map energyOf) else none }

/-- One printed line of the stop-phase report. -/
inductive ReportLine where
  | header
  | timeLine (runTime rsvTime : ℤ)
  | cpuLine (load : ℚ) (numCpus : ℕ)
  | ramLine (peak limit : ℚ)
  | gpuLoadLine (load : ℚ) (numGpus : ℕ)
  | gpuMemLine (peak avail : ℚ)
  | gpuEnergyLine (used : ℚ)
deriving DecidableEq

/-- The stop action of `main` (lines 267–291), given the outcome of each
counter source: lines are printed one by one as each source returns, and
an exception aborts the remaining prints.  Returns the lines that
reached standard output and whether the action completed. -/
def main_stop (timeResult : Except StopError (ℤ × ℤ))
    (cpuResult : Except StopError (ℚ × ℕ × ℚ × ℚ))
    (gpus : ℕ)
    (gpuResult : Except StopError (ℚ × ℕ × ℚ × ℚ × ℚ)) : List ReportLine × Bool :=
  match timeResult with
  | .error _ => ([.header], false)
  | .ok (runTime, rsvTime) =>
    match cpuResult with
    | .error _ => ([.header, .timeLine runTime rsvTime], false)
    | .ok (cpuLoad, numCpus, memoryMax, memoryLimit) =>
      let base := [ReportLine.header, .timeLine runTime rsvTime, .cpuLine cpuLoad numCpus,
        .ramLine memoryMax memoryLimit]
      if 0 < gpus then
        match gpuResult with
        | .error _ => (base, false)
        | .ok (gpuLoad, _, gpuPeak, gpuAvail, energyUsed) =>
          (base ++ [.gpuLoadLine gpuLoad gpus, .gpuMemLine gpuPeak gpuAvail,
            .gpuEnergyLine energyUsed], true)
      else (base, true)

/-! ### Generic list helpers -/

theorem adjPairs_cons_cons (a b : ℤ) (t : List ℤ) :
    adjPairs (a :: b :: t) = (a, b) :: adjPairs (b :: t) := rfl

theorem sum_map_add {α : Type} (l : List α) (f g : α → ℤ) :
    (l.map fun a => f a + g a).sum = (l.map f).sum + (l.map g).sum := by
  induction l with
  | nil => simp
  | cons a t ih =>
    simp only [List.map_cons, List.sum_cons, ih]
    ring

theorem sum_map_swap {α β : Type} (l1 : List α) (l2 : List β) (F : α → β → ℤ) :
    (l1.map fun a => (l2.map fun b => F a b).sum).sum
      = (l2.map fun b => (l1.map fun a => F a b).sum).sum := by
  induction l1 with
  | nil => simp
  | cons a t ih =>
    simp only [List.map_cons, List.sum_cons, ih, sum_map_add]

theorem foldr_max_max (a b : ℤ) : ∀ l : List ℤ, l.foldr max (max a b) = max a (l.foldr max b)
  | [] => rfl
  | x :: t => by
    simp only [List.foldr_cons, foldr_max_max a b t]
    rw [max_left_comm]

theorem foldl_max_eq_foldr (b : ℤ) : ∀ l : List ℤ, l.foldl max b = l.foldr max b
  | [] => rfl
  | x :: t => by
    rw [List.foldl_cons, foldl_max_eq_foldr (max b x) t, List.foldr_cons, max_comm b x,
      foldr_max_max]

theorem foldl_pair_split (f g : ℤ × ℤ → ℤ) :
    ∀ (pairs : List (ℤ × ℤ)) (a b : ℤ),
      pairs.foldl (fun up p => (up.1 + f p, max up.2 (g p))) (a, b)
        = (a + (pairs.map f).sum, (pairs.map g).foldl max b)
  | [], a, b => by simp
  | p :: ps, a, b => by
    simp only [List.foldl_cons, List.map_cons, List.sum_cons]
    rw [foldl_pair_split f g ps (a + f p) (max b (g p))]
    simp [add_assoc]

theorem adjPairs_mem {L : List ℤ} {p : ℤ × ℤ} (h : p ∈ adjPairs L) : p.1 ∈ L ∧ p.2 ∈ L := by
  obtain ⟨x, y⟩ := p
  have h2 := List.of_mem_zip h
  exact ⟨h2.1, List.mem_of_mem_tail h2.2⟩

theorem adj_facts : ∀ {L : List ℤ}, L.Sorted (· ≤ ·) →
    ∀ p ∈ adjPairs L, p.1 ≤ p.2 ∧ ∀ z ∈ L, ¬(p.1 < z ∧ z < p.2) := by
  intro L
  induction L with
  | nil => intro _ p hp; simp [adjPairs] at hp
  | cons a t ih =>
    intro hs p hp
    obtain ⟨ha, hts⟩ := List.sorted_cons.mp hs
    cases t with
    | nil => simp [adjPairs] at hp
    | cons b t2 =>
      rw [adjPairs_cons_cons, List.mem_cons] at hp
      rcases hp with rfl | hp2
      · refine ⟨ha b (by simp), ?_⟩
        intro z hz hcon
        rcases List.mem_cons.mp hz with rfl | hz2
        · exact lt_irrefl _ hcon.1
        · have hbz : b ≤ z := by
            rcases List.mem_cons.mp hz2 with rfl | hz3
            · exact le_refl _
            · exact (List.sorted_cons.mp hts).1 z hz3
          exact absurd hcon.2 (not_lt.mpr hbz)
      · have hfacts := ih hts p hp2
        refine ⟨hfacts.1, ?_⟩
        intro z hz hcon
        rcases List.mem_cons.mp hz with rfl | hz2
        · have hp1 : p.1 ∈ b :: t2 := (adjPairs_mem hp2).1
          exact absurd hcon.1 (not_lt.mpr (ha p.1 hp1))
        · exact hfacts.2 z hz2 hcon

theorem telescope (f : ℤ → ℤ) : ∀ L : List ℤ,
    ((adjPairs L).map fun p => f p.2 - f p.1).sum = f (L.getLastD 0) - f (L.headD 0)
  | [] => by simp [adjPairs]
  | [a] => by simp [adjPairs]
  | a :: b :: t => by
    rw [adjPairs_cons_cons, List.map_cons, List.sum_cons, telescope f (b :: t)]
    simp only [List.getLastD_cons, List.headD_cons]
    ring

theorem sorted_headD_le {L : List ℤ} (hs : L.Sorted (· ≤ ·)) : ∀ z ∈ L, L.headD 0 ≤ z := by
  cases L with
  | nil => intro z hz; simp at hz
  | cons a t =>
    intro z hz
    rcases List.mem_cons.mp hz with rfl | hz2
    · simp
    · simpa using (List.sorted_cons.mp hs).1 z hz2

theorem sorted_le_getLastD : ∀ {L : List ℤ}, L.Sorted (· ≤ ·) → ∀ z ∈ L, z ≤ L.getLastD 0
  | [], _, z, hz => by simp at hz
  | [a], _, z, hz => by
    rcases List.mem_cons.mp hz with rfl | h
    · simp
    · simp at h
  | a :: b :: t, hs, z, hz => by
    obtain ⟨ha, hts⟩ := List.sorted_cons.mp hs
    have hlast : (a :: b :: t : List ℤ).getLastD 0 = (b :: t : List ℤ).getLastD 0 := by
      simp [List.getLastD_cons]
    rw [hlast]
    rcases List.mem_cons.mp hz with rfl | hz2
    · exact le_trans (ha b (by simp)) (sorted_le_getLastD hts b (by simp))
    · exact sorted_le_getLastD hts z hz2

theorem headD_mem : ∀ {L : List ℤ}, L ≠ [] → L.headD 0 ∈ L
  | [], h => absurd rfl h
  | _ :: _, _ => by simp

theorem getLastD_mem : ∀ {L : List ℤ}, L ≠ [] → L.getLastD 0 ∈ L
  | [], h => absurd rfl h
  | [a], _ => by simp
  | a :: b :: t, _ => by
    have h2 : (a :: b :: t : List ℤ).getLastD 0 = (b :: t : List ℤ).getLastD 0 := by
      simp [List.getLastD_cons]
    rw [h2]
    exact List.mem_cons_of_mem a (getLastD_mem (by simp))

theorem clamp_eq {x y a b : ℤ} (hxy : x ≤ y) (hab : a ≤ b)
    (hx : ¬(a < x ∧ x < b)) (hy : ¬(a < y ∧ y < b)) :
    (if x ≤ a ∧ b ≤ y then b - a else 0) = max x (min b y) - max x (min a y) := by
  simp only [max_def, min_def]
  split_ifs <;> omega

theorem cover_len_sum {L : List ℤ} (hs : L.Sorted (· ≤ ·)) {x y : ℤ}
    (hx : x ∈ L) (hy : y ∈ L) (hxy : x ≤ y) :
    ((adjPairs L).map fun p => if x ≤ p.1 ∧ p.2 ≤ y then p.2 - p.1 else 0).sum = y - x := by
  have hcong : ∀ p ∈ adjPairs L,
      (if x ≤ p.1 ∧ p.2 ≤ y then p.2 - p.1 else 0)
        = (fun t => max x (min t y)) p.2 - (fun t => max x (min t y)) p.1 := by
    intro p hp
    have h := adj_facts hs p hp
    exact clamp_eq hxy h.1 (h.2 x hx) (h.2 y hy)
  rw [List.map_congr_left hcong, telescope (fun t => max x (min t y)) L]
  have h1 : L.headD 0 ≤ x := sorted_headD_le hs x hx
  have h2 : y ≤ L.getLastD 0 := sorted_le_getLastD hs y hy
  simp only [max_def, min_def]
  split_ifs <;> omega

/-! ### Characterisation of `minStart` and `maxEnd` -/

theorem foldl_min_le_init (g : AccountingStat → ℤ) :
    ∀ (l : List AccountingStat) (a : ℤ), l.foldl (fun m r => min m (g r)) a ≤ a
  | [], a => le_refl a
  | r :: t, a => le_trans (foldl_min_le_init g t (min a (g r))) (min_le_left _ _)

theorem foldl_min_le_mem (g : AccountingStat → ℤ) :
    ∀ (l : List AccountingStat) (a : ℤ) (r : AccountingStat), r ∈ l →
      l.foldl (fun m x => min m (g x)) a ≤ g r
  | [], _, r, h => by simp at h
  | r0 :: t, a, r, h => by
    rcases List.mem_cons.mp h with rfl | h2
    · exact le_trans (foldl_min_le_init g t (min a (g r))) (min_le_right _ _)
    · exact foldl_min_le_mem g t (min a (g r0)) r h2

theorem foldl_min_mem (g : AccountingStat → ℤ) :
    ∀ (l : List AccountingStat) (a : ℤ),
      l.foldl (fun m x => min m (g x)) a = a ∨ ∃ r ∈ l, l.foldl (fun m x => min m (g x)) a = g r
  | [], _ => Or.inl rfl
  | r0 :: t, a => by
    simp only [List.foldl_cons]
    rcases foldl_min_mem g t (min a (g r0)) with h | ⟨r, hr, he⟩
    · rcases le_total a (g r0) with hle | hle
      · exact Or.inl (h.trans (min_eq_left hle))
      · exact Or.inr ⟨r0, List.mem_cons_self _ _, h.trans (min_eq_right hle)⟩
    · exact Or.inr ⟨r, List.mem_cons_of_mem _ hr, he⟩

theorem init_le_foldl_max (g : AccountingStat → ℤ) :
    ∀ (l : List AccountingStat) (a : ℤ), a ≤ l.foldl (fun m r => max m (g r)) a
  | [], a => le_refl a
  | r :: t, a => le_trans (le_max_left _ _) (init_le_foldl_max g t (max a (g r)))

theorem mem_le_foldl_max (g : AccountingStat → ℤ) :
    ∀ (l : List AccountingStat) (a : ℤ) (r : AccountingStat), r ∈ l →
      g r ≤ l.foldl (fun m x => max m (g x)) a
  | [], _, r, h => by simp at h
  | r0 :: t, a, r, h => by
    rcases List.mem_cons.mp h with rfl | h2
    · exact le_trans (le_max_right _ _) (init_le_foldl_max g t (max a (g r)))
    · exact mem_le_foldl_max g t (max a (g r0)) r h2

theorem foldl_max_mem (g : AccountingStat → ℤ) :
    ∀ (l : List AccountingStat) (a : ℤ),
      l.foldl (fun m x => max m (g x)) a = a ∨ ∃ r ∈ l, l.foldl (fun m x => max m (g x)) a = g r
  | [], _ => Or.inl rfl
  | r0 :: t, a => by
    simp only [List.foldl_cons]
    rcases foldl_max_mem g t (max a (g r0)) with h | ⟨r, hr, he⟩
    · rcases le_total a (g r0) with hle | hle
      · exact Or.inr ⟨r0, List.mem_cons_self _ _, h.trans (max_eq_right hle)⟩
      · exact Or.inl (h.trans (max_eq_left hle))
    · exact Or.inr ⟨r, List.mem_cons_of_mem _ hr, he⟩

theorem minStart_le {fs : List AccountingStat} {s : AccountingStat} (h : s ∈ fs) :
    minStart fs ≤ s.startTime := by
  cases fs with
  | nil => simp at h
  | cons s0 t =>
    rcases List.mem_cons.mp h with rfl | h2
    · exact foldl_min_le_init _ t _
    · exact foldl_min_le_mem _ t _ s h2

theorem minStart_mem {fs : List AccountingStat} (h : fs ≠ []) :
    ∃ s ∈ fs, minStart fs = s.startTime := by
  cases fs with
  | nil => exact absurd rfl h
  | cons s0 t =>
    rcases foldl_min_mem (fun r => r.startTime) t s0.startTime with he | ⟨r, hr, he⟩
    · exact ⟨s0, List.mem_cons_self _ _, he⟩
    · exact ⟨r, List.mem_cons_of_mem _ hr, he⟩

theorem le_maxEnd {fs : List AccountingStat} {s : AccountingStat} (h : s ∈ fs) :
    s.startTime + s.time ≤ maxEnd fs := by
  cases fs with
  | nil => simp at h
  | cons s0 t =>
    rcases List.mem_cons.mp h with rfl | h2
    · exact init_le_foldl_max _ t _
    · exact mem_le_foldl_max _ t _ s h2

theorem maxEnd_mem {fs : List AccountingStat} (h : fs ≠ []) :
    ∃ s ∈ fs, maxEnd fs = s.startTime + s.time := by
  cases fs with
  | nil => exact absurd rfl h
  | cons s0 t =>
    rcases foldl_max_mem (fun r => r.startTime + r.time) t (s0.startTime + s0.time) with
      he | ⟨r, hr, he⟩
    · exact ⟨s0, List.mem_cons_self _ _, he⟩
    · exact ⟨r, List.mem_cons_of_mem _ hr, he⟩

/-! ### Facts about `timesplits` -/

theorem sorted_timesplits (fs : List AccountingStat) : (timesplits fs).Sorted (· ≤ ·) :=
  List.sorted_insertionSort _ _

theorem start_mem_timesplits {fs : List AccountingStat} {s : AccountingStat} (h : s ∈ fs) :
    s.startTime ∈ timesplits fs := by
  simp only [timesplits, List.mem_insertionSort, List.mem_append, List.mem_map]
  exact Or.inl ⟨s, h, rfl⟩

theorem endpoint_mem_timesplits {fs : List AccountingStat} {s : AccountingStat} (h : s ∈ fs) :
    s.startTime + s.time ∈ timesplits fs := by
  simp only [timesplits, List.mem_insertionSort, List.mem_append, List.mem_map]
  exact Or.inr ⟨s, h, rfl⟩

theorem timesplits_mem_cases {fs : List AccountingStat} {x : ℤ} (h : x ∈ timesplits fs) :
    (∃ s ∈ fs, x = s.startTime) ∨ ∃ s ∈ fs, x = s.startTime + s.time := by
  simp only [timesplits, List.mem_insertionSort, List.mem_append, List.mem_map] at h
  rcases h with ⟨s, hs, he⟩ | ⟨s, hs, he⟩
  · exact Or.inl ⟨s, hs, he.symm⟩
  · exact Or.inr ⟨s, hs, he.symm⟩

theorem timesplits_ne_nil {fs : List AccountingStat} (h : fs ≠ []) : timesplits fs ≠ [] := by
  cases fs with
  | nil => exact absurd rfl h
  | cons s t => exact List.ne_nil_of_mem (start_mem_timesplits (List.mem_cons_self s t))

theorem headD_timesplits {fs : List AccountingStat} (hne : fs ≠ [])
    (hd : ∀ s ∈ fs, 0 ≤ s.time) : (timesplits fs).headD 0 = minStart fs := by
  apply le_antisymm
  · obtain ⟨s, hs, he⟩ := minStart_mem hne
    rw [he]
    exact sorted_headD_le (sorted_timesplits fs) _ (start_mem_timesplits hs)
  · have hmem := headD_mem (timesplits_ne_nil hne)
    rcases timesplits_mem_cases hmem with ⟨s, hs, he⟩ | ⟨s, hs, he⟩
    · rw [he]
      exact minStart_le hs
    · rw [he]
      exact le_trans (minStart_le hs) (le_add_of_nonneg_right (hd s hs))

theorem getLastD_timesplits {fs : List AccountingStat} (hne : fs ≠ [])
    (hd : ∀ s ∈ fs, 0 ≤ s.time) : (timesplits fs).getLastD 0 = maxEnd fs := by
  apply le_antisymm
  · have hmem := getLastD_mem (timesplits_ne_nil hne)
    rcases timesplits_mem_cases hmem with ⟨s, hs, he⟩ | ⟨s, hs, he⟩
    · rw [he]
      exact le_trans (le_add_of_nonneg_right (hd s hs)) (le_maxEnd hs)
    · rw [he]
      exact le_maxEnd hs
  · obtain ⟨s, hs, he⟩ := maxEnd_mem hne
    rw [he]
    exact sorted_le_getLastD (sorted_timesplits fs) _ (endpoint_mem_timesplits hs)

/-! ### Characterisation of the aggregator loop -/

theorem usage_core_eq (fs : List AccountingStat) :
    usage_core fs =
      (if (timesplits fs).isEmpty then (0 : ℚ)
        else ((((adjPairs (timesplits fs)).map fun p =>
            coverUtil fs p.1 p.2 * (p.2 - p.1)).sum : ℤ) : ℚ) / 100 / ((denom fs : ℤ) : ℚ),
        ((adjPairs (timesplits fs)).map fun p => coverMem fs p.1 p.2).foldr max 0) := by
  dsimp only [usage_core]
  rw [foldl_pair_split (fun p => coverUtil fs p.1 p.2 * (p.2 - p.1))
    (fun p => coverMem fs p.1 p.2) (adjPairs (timesplits fs)) 0 0]
  by_cases h : (timesplits fs).isEmpty <;>
    simp [h, foldl_max_eq_foldr]

theorem raw_sum_eq {fs : List AccountingStat} (hd : ∀ s ∈ fs, 0 ≤ s.time) :
    ((adjPairs (timesplits fs)).map fun p => coverUtil fs p.1 p.2 * (p.2 - p.1)).sum
      = (fs.map fun s => s.gpuUtilization * s.time).sum := by
  have step1 : ((adjPairs (timesplits fs)).map fun p =>
        coverUtil fs p.1 p.2 * (p.2 - p.1)).sum
      = ((adjPairs (timesplits fs)).map fun p => (fs.map fun s =>
          (if s.startTime ≤ p.1 ∧ p.2 ≤ s.startTime + s.time then s.gpuUtilization else 0)
            * (p.2 - p.1)).sum).sum := by
    apply congrArg
    apply List.map_congr_left
    intro p _
    simp only [coverUtil]
    rw [← List.sum_map_mul_right]
  rw [step1,
    sum_map_swap (adjPairs (timesplits fs)) fs (fun p s =>
      (if s.startTime ≤ p.1 ∧ p.2 ≤ s.startTime + s.time then s.gpuUtilization else 0)
        * (p.2 - p.1))]
  apply congrArg
  apply List.map_congr_left
  intro s hs
  have hx := start_mem_timesplits hs
  have hy := endpoint_mem_timesplits hs
  have hxy : s.startTime ≤ s.startTime + s.time := le_add_of_nonneg_right (hd s hs)
  have hsplit : ((adjPairs (timesplits fs)).map fun p =>
        (if s.startTime ≤ p.1 ∧ p.2 ≤ s.startTime + s.time then s.gpuUtilization else 0)
          * (p.2 - p.1)).sum
      = ((adjPairs (timesplits fs)).map fun p => s.gpuUtilization *
          (if s.startTime ≤ p.1 ∧ p.2 ≤ s.startTime + s.time then p.2 - p.1 else 0)).sum := by
    apply congrArg
    apply List.map_congr_left
    intro p _
    by_cases hc : s.startTime ≤ p.1 ∧ p.2 ≤ s.startTime + s.time <;> simp [hc]
  rw [hsplit, List.sum_map_mul_left,
    cover_len_sum (sorted_timesplits fs) hx hy hxy]
  ring

/-! ### Helpers for the CPU and energy paths -/

theorem cpuLoadList_of_ne_zero {runTime : ℤ} (h : runTime ≠ 0) :
    ∀ times : List ℤ, cpuLoadList times runTime
      = some (times.map fun t : ℤ => ((t : ℚ) / ((runTime : ℚ) * 1000000000)))
  | [] => rfl
  | t :: rest => by
    have hden : ((runTime : ℚ) * 1000000000) ≠ 0 :=
      mul_ne_zero (Int.cast_ne_zero.mpr h) (by norm_num)
    simp only [cpuLoadList, floatDiv, if_neg hden, cpuLoadList_of_ne_zero h rest,
      List.map_cons]

theorem energy_used_eq_range (energy_new : List ℤ) :
    ∀ energy_old : List ℤ, energy_used energy_new energy_old
      = ∑ i ∈ Finset.range (min energy_new.length energy_old.length),
          ((energy_new.getD i 0 - energy_old.getD i 0 : ℤ) : ℚ) / 3600000000 := by
  induction energy_new with
  | nil => intro old; simp [energy_used]
  | cons n ns ih =>
    intro old
    cases old with
    | nil => simp [energy_used]
    | cons o os =>
      simp only [energy_used, List.zip_cons_cons, List.map_cons, List.sum_cons,
        List.length_cons, Nat.succ_min_succ, Finset.sum_range_succ']
      have hrec := ih os
      simp only [energy_used] at hrec
      rw [hrec]
      simp only [List.getD_cons_succ, List.getD_cons_zero]
      ring

/-! ### Claims -/

/-- Claim C3: a record whose `startTime` is strictly before job start is
dropped entirely by the aggregator — it contributes nothing to the load,
the peak memory, or the timeline partition, even when its end time falls
after job start. -/
theorem dropped_record_before_jobStart (jobStart : ℤ) (r : AccountingStat)
    (stats : List AccountingStat) (h : r.startTime < jobStart) :
    usage_stats jobStart (r :: stats) = usage_stats jobStart stats
    ∧ timesplits (jobFilter jobStart (r :: stats)) = timesplits (jobFilter jobStart stats) := by
  have h2 : ¬ jobStart ≤ r.startTime := not_le.mpr h
  have hfilter : jobFilter jobStart (r :: stats) = jobFilter jobStart stats := by
    simp [jobFilter, List.filter_cons, h2]
  exact ⟨by unfold usage_stats; rw [hfilter], by rw [hfilter]⟩

theorem dropped_record_before_jobStart_witness :
    usage_stats 0 [⟨-1, 5, 50, 7⟩, ⟨0, 1, 10, 3⟩] = usage_stats 0 [⟨0, 1, 10, 3⟩] :=
  (dropped_record_before_jobStart 0 ⟨-1, 5, 50, 7⟩ [⟨0, 1, 10, 3⟩] (by decide)).1

/-- Claim C4: the aggregator's division is guarded — an empty filtered
record set yields load `0` and peak memory `0`, the divisor
`max(lastEndpoint - firstEndpoint, 1)` is at least `1`, and a sole
record of duration `0` yields load `0`. -/
theorem aggregator_division_guarded (jobStart : ℤ) (stats : List AccountingStat)
    (r : AccountingStat) :
    (jobFilter jobStart stats = [] → usage_stats jobStart stats = (0, 0))
    ∧ 1 ≤ denom (jobFilter jobStart stats)
    ∧ (jobStart ≤ r.startTime → r.time = 0 → (usage_stats jobStart [r]).1 = 0) := by
  refine ⟨?_, le_max_right _ _, ?_⟩
  · intro h
    unfold usage_stats
    rw [h]
    rfl
  · intro h1 h2
    have hf : jobFilter jobStart [r] = [r] := by
      simp [jobFilter, List.filter_cons, h1]
    have hts : timesplits [r] = [r.startTime, r.startTime] := by
      simp [timesplits, h2, List.orderedInsert]
    unfold usage_stats
    rw [hf, usage_core_eq]
    simp [hts, adjPairs, sub_self]

theorem aggregator_division_guarded_witness :
    usage_stats 5 [⟨0, 1, 1, 1⟩] = (0, 0)
    ∧ 1 ≤ denom (jobFilter 5 [⟨0, 1, 1, 1⟩])
    ∧ (usage_stats 5 [⟨5, 0, 30, 9⟩]).1 = 0 := by
  have h := aggregator_division_guarded 5 [⟨0, 1, 1, 1⟩] ⟨5, 0, 30, 9⟩
  exact ⟨h.1 (by decide), h.2.1, h.2.2 (by decide) (by decide)⟩

/-- Claim C5: with a baseline present and a positive run time, the
stop-phase CPU result reports total load
`Σ_{i ∈ cpuset} (current[i] - baseline[i]) / (runTime * 1e9)` and core
count `|cpuset|`; cores outside the cpu-set influence neither. -/
theorem cgroup_stop_cpu_load (baseline usage_percpu : List ℤ) (cpuset : List ℕ)
    (runTime memoryMax memoryLimit : ℤ) (h : 0 < runTime) :
    cgroup_stop (some baseline) usage_percpu cpuset runTime memoryMax memoryLimit
      = .ok ((cpuset.map fun i =>
          ((usage_percpu.getD i 0 - baseline.getD i 0 : ℤ) : ℚ)
            / ((runTime : ℚ) * 1000000000)).sum,
        cpuset.length, (memoryMax : ℚ) / 1024 ^ 3, (memoryLimit : ℚ) / 1024 ^ 3)
    ∧ ∀ usage2 baseline2 : List ℤ,
        (∀ i ∈ cpuset, usage2.getD i 0 - baseline2.getD i 0
          = usage_percpu.getD i 0 - baseline.getD i 0) →
        cgroup_stop (some baseline2) usage2 cpuset runTime memoryMax memoryLimit
          = cgroup_stop (some baseline) usage_percpu cpuset runTime memoryMax memoryLimit := by
  have e := cpuLoadList_of_ne_zero h.ne'
    (cpuset.map fun i => usage_percpu.getD i 0 - baseline.getD i 0)
  constructor
  · simp only [cgroup_stop, e]
    simp only [List.map_map, List.length_map]
    congr 2
  · intro usage2 baseline2 hagree
    have hsame : (cpuset.map fun i => usage2.getD i 0 - baseline2.getD i 0)
        = cpuset.map fun i => usage_percpu.getD i 0 - baseline.getD i 0 :=
      List.map_congr_left hagree
    simp only [cgroup_stop, hsame]

theorem cgroup_stop_cpu_load_witness :
    cgroup_stop (some [0, 0]) [5, 7] [1] 2 3 4
      = .ok ((7 : ℚ) / 2000000000, 1, (3 : ℚ) / 1024 ^ 3, (4 : ℚ) / 1024 ^ 3) := by
  have h := (cgroup_stop_cpu_load [0, 0] [5, 7] [1] 2 3 4 (by decide)).1
  rw [h]
  norm_num

/-- Claim C6 (code bug): an elapsed run time of zero seconds is **not**
guarded — the stop-phase CPU computation performs `t / (run_time * 1e9)`
with divisor `0` and raises `ZeroDivisionError` (modelled by
`StopError.zeroDivision`); no `inf`/NaN is produced because the division
itself fails first. -/
theorem cgroup_stop_zero_runtime_division_error :
    cgroup_stop (some [0]) [5] [0] 0 0 0 = .error .zeroDivision := by
  norm_num [cgroup_stop, cpuLoadList, floatDiv]

/-- Claim C7: invoking stop with no prior start snapshot for the
(job, host) — the baseline key absent from the shelve store — fails with
the distinguished missing-baseline error in both the CPU and the GPU
stop paths, never with a parse failure or another error. -/
theorem stop_without_baseline_missingBaselineError (usage_percpu : List ℤ)
    (cpuset : List ℕ) (runTime memoryMax memoryLimit jobStart : ℤ)
    (devices : List GpuDevice) :
    cgroup_stop none usage_percpu cpuset runTime memoryMax memoryLimit
        = .error .missingBaseline
    ∧ nvml_stop jobStart none devices = .error .missingBaseline :=
  ⟨rfl, rfl⟩

/-- Claim C8 counterexample: when the GPU source fails during stop, the
header, Time, CPU and RAM lines have already reached standard output —
a nonempty partial report is emitted, contradicting the claim that no
subset of the report lines is printed. -/
theorem torn_report_cex :
    main_stop (.ok (60, 3600)) (.ok (1, 4, 8, 16)) 1 (.error .missingBaseline)
      = ([.header, .timeLine 60 3600, .cpuLine 1 4, .ramLine 8 16], false)
    ∧ ([ReportLine.header, .timeLine 60 3600, .cpuLine 1 4, .ramLine 8 16] :
        List ReportLine) ≠ [] :=
  ⟨rfl, by decide⟩

/-- Claim C8 (amended): the stop-phase report is emitted incrementally,
not atomically — when a counter source fails, exactly the lines printed
before the failing source remain on standard output: the header alone if
the time parse fails, header and Time line if the CPU source fails, and
header, Time, CPU and RAM lines if the GPU source fails. -/
theorem report_prefix_on_failure (runTime rsvTime : ℤ) (cpuLoad : ℚ) (numCpus : ℕ)
    (memoryMax memoryLimit : ℚ) (gpus : ℕ) (e : StopError)
    (cpuResult : Except StopError (ℚ × ℕ × ℚ × ℚ))
    (gpuResult : Except StopError (ℚ × ℕ × ℚ × ℚ × ℚ))
    (hg : 0 < gpus) :
    main_stop (.error e) cpuResult gpus gpuResult = ([.header], false)
    ∧ main_stop (.ok (runTime, rsvTime)) (.error e) gpus gpuResult
        = ([.header, .timeLine runTime rsvTime], false)
    ∧ main_stop (.ok (runTime, rsvTime)) (.ok (cpuLoad, numCpus, memoryMax, memoryLimit))
          gpus (.error e)
        = ([.header, .timeLine runTime rsvTime, .cpuLine cpuLoad numCpus,
            .ramLine memoryMax memoryLimit], false) := by
  refine ⟨rfl, rfl, ?_⟩
  simp [main_stop, hg]

theorem report_prefix_on_failure_witness :
    main_stop (.ok (60, 3600)) (.error .missingBaseline) 1 (.error .missingBaseline)
      = ([.header, .timeLine 60 3600], false) :=
  (report_prefix_on_failure 60 3600 0 0 0 0 1 .missingBaseline
    (.error .missingBaseline) (.error .missingBaseline) (by decide)).2.1

/-- Claim C9: GPU absence is never an error — with no vendor API the
device count is `0`, start succeeds while persisting no energy baseline
(but still the CPU baseline), and stop succeeds with a report that omits
the three GPU lines. -/
theorem gpu_absence_not_error (usage_percpu : List ℤ) (energyOf : ℕ → ℤ)
    (runTime rsvTime : ℤ) (cpuLoad : ℚ) (numCpus : ℕ) (memoryMax memoryLimit : ℚ)
    (gpuResult : Except StopError (ℚ × ℕ × ℚ × ℚ × ℚ)) :
    num_gpus none = 0
    ∧ (main_start none usage_percpu energyOf).energy_usage_old = none
    ∧ (main_start none usage_percpu energyOf).usage_percpu_old = some usage_percpu
    ∧ main_stop (.ok (runTime, rsvTime)) (.ok (cpuLoad, numCpus, memoryMax, memoryLimit))
          (num_gpus none) gpuResult
        = ([.header, .timeLine runTime rsvTime, .cpuLine cpuLoad numCpus,
            .ramLine memoryMax memoryLimit], true) :=
  ⟨rfl, rfl, rfl, rfl⟩

/-- Claim C10: when the device count at stop differs from the number of
energy baselines persisted at start, the stop-phase energy computation
does not fail; the reported energy sums `(current - baseline) / 3.6e9`
over only the first `min(devices at stop, baselines at start)` devices,
ignoring the excess entries on either side. -/
theorem energy_zip_truncation (jobStart : ℤ) (energy_old : List ℤ)
    (devices : List GpuDevice) (hmismatch : devices.length ≠ energy_old.length)
    (hne : devices ≠ []) :
    (nvml_stop jobStart (some energy_old) devices).toOption.map
        (fun r => (r.1, r.2.1, r.2.2.2.2))
      = some ((devices.map fun d => (usage_stats jobStart d.stats).1).sum,
          devices.length, energy_used (devices.map fun d => d.energy) energy_old)
    ∧ energy_used (devices.map fun d => d.energy) energy_old
        = ∑ i ∈ Finset.range (min devices.length energy_old.length),
            (((devices.map fun d => d.energy).getD i 0 - energy_old.getD i 0 : ℤ) : ℚ)
              / 3600000000 := by
  constructor
  · cases devices with
    | nil => exact absurd rfl hne
    | cons d ds =>
      dsimp only [nvml_stop, List.map_cons, listMax, listMin, Except.toOption, Option.map]
      simp [List.length_map]
  · have h := energy_used_eq_range (devices.map fun d => d.energy) energy_old
    rwa [List.length_map] at h

theorem energy_zip_truncation_witness :
    (nvml_stop 0 (some []) [⟨3600000000, [], 1⟩]).toOption.map
        (fun r => (r.1, r.2.1, r.2.2.2.2))
      = some (((([⟨3600000000, [], 1⟩] : List GpuDevice)).map fun d =>
          (usage_stats 0 d.stats).1).sum, 1,
        energy_used ((([⟨3600000000, [], 1⟩] : List GpuDevice)).map fun d => d.energy)
          []) := by
  have h := energy_zip_truncation 0 [] [⟨3600000000, [], 1⟩] (by decide)
    (List.cons_ne_nil _ _)
  exact h.1

/-- Claim C1 counterexample: on the two records `[0,1]` and `[1,2]`, each
with peak memory `10`, the aggregator reports peak memory `20` — the
endpoint `1` appears twice, and the zero-width sub-interval `(1,1)` is
covered by both records — while the spec's reference algorithm over the
sorted **distinct** endpoints reports `10`.  The aggregator therefore
does not return what the spec's reference algorithm prescribes. -/
theorem usage_stats_ne_specRefDistinct :
    usage_stats 0 [⟨0, 1, 30, 10⟩, ⟨1, 1, 40, 10⟩]
      ≠ specRefDistinct 0 [⟨0, 1, 30, 10⟩, ⟨1, 1, 40, 10⟩] := by
  have ha : (usage_stats 0 [⟨0, 1, 30, 10⟩, ⟨1, 1, 40, 10⟩]).2 = 20 := by decide
  have hb : (specRefDistinct 0 [⟨0, 1, 30, 10⟩, ⟨1, 1, 40, 10⟩]).2 = 10 := by decide
  intro h
  have hsnd := congrArg Prod.snd h
  rw [ha, hb] at hsnd
  exact absurd hsnd (by decide)

/-- Claim C1 (amended): the aggregator returns exactly the spec's
reference algorithm amended to keep the sorted endpoint sequence **with
multiplicity** (no dedup): same closed-interval covering rule, load
`Σ util(a,b)*(b-a) / 100 / max(lastEndpoint - firstEndpoint, 1)`, and
peak memory the maximum of `mem(a,b)` over the (possibly zero-width)
sub-intervals; `(0, 0)` on an empty filtered set. -/
theorem usage_stats_eq_specRefMulti (jobStart : ℤ) (stats : List AccountingStat) :
    usage_stats jobStart stats = specRefMulti jobStart stats := by
  show usage_core (jobFilter jobStart stats) = specRefMulti jobStart stats
  dsimp only [specRefMulti]
  by_cases h : jobFilter jobStart stats = []
  · rw [h]
    rfl
  · have hne := timesplits_ne_nil h
    have h1 : (timesplits (jobFilter jobStart stats)).isEmpty = false := by
      cases hE : (timesplits (jobFilter jobStart stats)).isEmpty
      · rfl
      · exact absurd (List.isEmpty_iff.mp hE) hne
    have h2 : (jobFilter jobStart stats).isEmpty = false := by
      cases hE : (jobFilter jobStart stats).isEmpty
      · rfl
      · exact absurd (List.isEmpty_iff.mp hE) h
    rw [usage_core_eq, h1, h2]
    simp only [Bool.false_eq_true, if_false]
    rfl

/-- Claim C2 counterexample: the two pairwise-disjoint records
`(start 0, duration 1, util 100)` and `(start 10, duration 1, util 100)`
have equal durations, yet the aggregator's time-weighted load is `2/11`,
not the arithmetic mean `(100+100)/2/100 = 1` of the `u_i/100`: the
claimed reduction to the arithmetic mean fails when the equal-duration
records do not tile the window contiguously. -/
theorem gpu_load_equal_durations_mean_cex :
    List.Pairwise (fun a b : AccountingStat =>
        a.startTime + a.time ≤ b.startTime ∨ b.startTime + b.time ≤ a.startTime)
      [⟨0, 1, 100, 0⟩, ⟨10, 1, 100, 0⟩]
    ∧ (∀ s ∈ [(⟨0, 1, 100, 0⟩ : AccountingStat), ⟨10, 1, 100, 0⟩], s.time = 1)
    ∧ (usage_stats 0 [⟨0, 1, 100, 0⟩, ⟨10, 1, 100, 0⟩]).1
        ≠ (((100 + 100 : ℚ) / 2) / 100) := by
  have hval : (usage_stats 0 [⟨0, 1, 100, 0⟩, ⟨10, 1, 100, 0⟩]).1 = 2 / 11 := by
    norm_num [usage_stats, usage_core, jobFilter, timesplits, adjPairs, coverUtil,
      coverMem, denom, List.insertionSort, List.orderedInsert, List.filter]
  refine ⟨by decide, by decide, ?_⟩
  rw [hval]
  norm_num

/-- Claim C2 (amended): for every non-empty set of pairwise disjoint
records with nonnegative durations, all starting at or after job start,
the aggregator's time-weighted load equals
`Σ u_i·d_i / 100 / (max_end - min_start)`; this reduces to the
arithmetic mean of the `u_i/100` when the equal-duration records
additionally tile the window contiguously
(`max_end - min_start = n·d`), not for all equal-duration sets. -/
theorem gpu_load_disjoint_formula (jobStart : ℤ) (fs : List AccountingStat)
    (hne : fs ≠ [])
    (hdur : ∀ s ∈ fs, 0 ≤ s.time)
    (hstart : ∀ s ∈ fs, jobStart ≤ s.startTime)
    (_hdisj : fs.Pairwise fun a b =>
      a.startTime + a.time ≤ b.startTime ∨ b.startTime + b.time ≤ a.startTime) :
    (usage_stats jobStart fs).1
      = (((fs.map fun s => s.gpuUtilization * s.time).sum : ℤ) : ℚ) / 100
          / ((maxEnd fs - minStart fs : ℤ) : ℚ)
    ∧ ∀ d : ℤ, 0 < d → (∀ s ∈ fs, s.time = d) →
        maxEnd fs - minStart fs = fs.length * d →
        (usage_stats jobStart fs).1
          = (((fs.map fun s => s.gpuUtilization).sum : ℤ) : ℚ) / (100 * fs.length) := by
  have hfilter : jobFilter jobStart fs = fs := by
    unfold jobFilter
    rw [List.filter_eq_self]
    intro s hs
    simpa using hstart s hs
  have hts_ne := timesplits_ne_nil hne
  have h1 : (timesplits fs).isEmpty = false := by
    cases hE : (timesplits fs).isEmpty
    · rfl
    · exact absurd (List.isEmpty_iff.mp hE) hts_ne
  have hfst : (usage_stats jobStart fs).1
      = (((fs.map fun s => s.gpuUtilization * s.time).sum : ℤ) : ℚ) / 100
          / ((max (maxEnd fs - minStart fs) 1 : ℤ) : ℚ) := by
    show (usage_core (jobFilter jobStart fs)).1 = _
    rw [hfilter, usage_core_eq]
    simp only [Bool.false_eq_true, if_false, h1]
    rw [raw_sum_eq hdur]
    unfold denom
    rw [getLastD_timesplits hne hdur, headD_timesplits hne hdur]
  obtain ⟨s0, hs0⟩ : ∃ s, s ∈ fs := by
    cases fs with
    | nil => exact absurd rfl hne
    | cons a t => exact ⟨a, List.mem_cons_self a t⟩
  have hspan0 : 0 ≤ maxEnd fs - minStart fs := by
    have hm1 := minStart_le hs0
    have hm2 := le_maxEnd hs0
    have hm3 := hdur s0 hs0
    omega
  have hmain : (usage_stats jobStart fs).1
      = (((fs.map fun s => s.gpuUtilization * s.time).sum : ℤ) : ℚ) / 100
          / ((maxEnd fs - minStart fs : ℤ) : ℚ) := by
    by_cases hsp : 1 ≤ maxEnd fs - minStart fs
    · rw [hfst, max_eq_left hsp]
    · have hz : maxEnd fs - minStart fs = 0 := by omega
      have htime : ∀ s ∈ fs, s.time = 0 := by
        intro s hs
        have hm1 := minStart_le hs
        have hm2 := le_maxEnd hs
        have hm3 := hdur s hs
        omega
      have hsum : (fs.map fun s => s.gpuUtilization * s.time).sum = 0 := by
        apply List.sum_eq_zero
        intro x hx
        obtain ⟨s, hs, rfl⟩ := List.mem_map.mp hx
        rw [htime s hs]
        ring
      rw [hfst, hz, hsum]
      norm_num
  refine ⟨hmain, ?_⟩
  intro d hd0 hall hcontig
  have hsum2 : (fs.map fun s => s.gpuUtilization * s.time).sum
      = (fs.map fun s => s.gpuUtilization).sum * d := by
    rw [← List.sum_map_mul_right]
    apply congrArg
    apply List.map_congr_left
    intro s hs
    rw [hall s hs]
  have hn : fs.length ≠ 0 := by
    cases fs with
    | nil => exact absurd rfl hne
    | cons a t => simp
  have hnq : ((fs.length : ℤ) : ℚ) ≠ 0 := by
    exact_mod_cast hn
  have hdq : ((d : ℤ) : ℚ) ≠ 0 := Int.cast_ne_zero.mpr hd0.ne'
  rw [hmain, hsum2, hcontig]
  push_cast
  field_simp
  ring

theorem gpu_load_disjoint_formula_witness :
    (usage_stats 0 [⟨0, 2, 50, 0⟩, ⟨2, 2, 100, 0⟩]).1
        = (((([(⟨0, 2, 50, 0⟩ : AccountingStat), ⟨2, 2, 100, 0⟩].map fun s =>
            s.gpuUtilization).sum : ℤ) : ℚ) / (100 * 2))
    ∧ (usage_stats 0 [⟨0, 2, 50, 0⟩, ⟨2, 2, 100, 0⟩]).1 = 3 / 4 := by
  have h := gpu_load_disjoint_formula 0 [⟨0, 2, 50, 0⟩, ⟨2, 2, 100, 0⟩]
    (List.cons_ne_nil _ _) (by decide) (by decide) (by decide)
  have h2 := h.2 2 (by decide) (by decide) (by decide)
  constructor
  · simpa using h2
  · rw [h2]
    norm_num

end Sprofile
